import Mathlib

/-!
Verification of the viscoelastic material kernel of matmodlab
(`src/matmodlab/materials/src/visco.pyf`).

The repository ships the f2py interface file `visco.pyf` with the call
signatures and boundary checks of the three kernel routines `viscorelax`,
`viscoini` and `propcheck`; the Fortran bodies (`visco.f90`) are not part
of the visible sources, so the routine bodies below are modelled from the
design specification, while the argument-boundary behaviour is embedded
directly from `visco.pyf`.
-/

namespace Visco

open scoped Classical

/-- Symmetric stress tensor stored as 6 independent engineering components. -/
abbrev Stress := Fin 6 → ℝ

/-- One Prony-series term: relative modulus ratio `g` and relaxation
(decay) time `tau`. -/
structure PronyTerm where
  g : ℝ
  tau : ℝ

/-- Error taxonomy of the kernel. -/
inductive VError
  | InvalidProperty
  | StateSizeMismatch
  | InvalidTimeStep
  | NumericalDivergence

/-- Threshold below which the ratio `dt / tau` is treated as numerically
negligible by the series-expansion guard. -/
noncomputable def eps : ℝ := 1 / 10 ^ 10

/-- Modelled from the spec: the Fortran body `visco.f90` is absent from the
sources, so the bracketed per-term factor `(1 - exp (-x)) / x` of the
relaxation recursion, replaced by `1` when `x` is numerically negligible,
follows the algorithm of spec section 4.3. -/
noncomputable def bracket (x : ℝ) : ℝ :=
  if x < eps then 1 else (1 - Real.exp (-x)) / x

/-- Modelled from the spec: one component of the recursive overstress update
of a single Prony term (spec section 4.3, step 2); `visco.f90` is absent
from the sources. -/
noncomputable def termUpdate (dt tau g old dsig : ℝ) : ℝ :=
  Real.exp (-(dt / tau)) * old + g * bracket (dt / tau) * dsig

/-- Modelled from the spec: update of the flat InternalState buffer, one
6-component overstress block per Prony term (spec sections 3 and 4.3);
`visco.f90` is absent from the sources. Entries beyond the Prony blocks
are left unchanged. -/
noncomputable def relaxState (dt : ℝ) (props : List PronyTerm) (statev : List ℝ)
    (dsig : Stress) : List ℝ :=
  (List.range statev.length).map fun j =>
    if h : j / 6 < props.length then
      termUpdate dt (props.get ⟨j / 6, h⟩).tau (props.get ⟨j / 6, h⟩).g
        (statev.getD j 0) (dsig ⟨j % 6, Nat.mod_lt j (by norm_num)⟩)
    else statev.getD j 0

/-- Sum over the first `n` Prony blocks of component `k` of the stored
overstress. -/
noncomputable def blockSum (n : ℕ) (statev : List ℝ) (k : Fin 6) : ℝ :=
  ∑ i ∈ Finset.range n, statev.getD (6 * i + k.val) 0

/-- Modelled from the spec: correction factor (a), the effective modulus
reduction ratio of spec section 4.3, step 4; `visco.f90` is absent from
the sources. -/
noncomputable def cfacA (dt : ℝ) (props : List PronyTerm) : ℝ :=
  1 - (props.map fun t => t.g * (1 - bracket (dt / t.tau))).sum

/-- Modelled from the spec: correction factor (b), the minimum over the
Prony terms of `dt / tau` (spec section 4.3, step 4); `visco.f90` is
absent from the sources. `0` is returned for an empty property set. -/
noncomputable def cfacB (dt : ℝ) : List PronyTerm → ℝ
  | [] => 0
  | t :: ts => ts.foldl (fun m u => min m (dt / u.tau)) (dt / t.tau)

/-- Modelled from the spec: the RelaxationIntegrator `viscorelax`
(spec section 4.3); the Fortran body `visco.f90` is absent from the
sources, only its f2py signature is visible. The relaxation times in
`props` are the already temperature-shifted ones (the shift-factor law is
not specified), and the driving stress increment `dsig` is an explicit
input since the spec leaves the caller's stress-difference convention
open. Returns the call result (relaxed stress and the two correction
factors, or a fatal error) paired with the post-call InternalState
buffer; on the failure path the buffer is the unchanged input. -/
noncomputable def viscorelax (dtime time tempold dtemp : ℝ) (props : List PronyTerm)
    (f : Matrix (Fin 3) (Fin 3) ℝ) (statev : List ℝ) (sigo dsig : Stress) :
    Except VError (Stress × ℝ × ℝ) × List ℝ :=
  if dtime < 0 then (Except.error VError.InvalidTimeStep, statev)
  else if dtime = 0 then (Except.ok (sigo, 1, 0), statev)
  else
    (Except.ok
      ((fun k => sigo k - blockSum props.length (relaxState dtime props statev dsig) k),
        cfacA dtime props, cfacB dtime props),
      relaxState dtime props statev dsig)

/-- Modelled from the spec: the StateInitializer `viscoini`
(spec section 4.2); the Fortran body `visco.f90` is absent from the
sources. Verifies the buffer holds exactly 6 components per Prony term
and zero-fills it. -/
def viscoini (props : List PronyTerm) (statev : List ℝ) : Except VError (List ℝ) :=
  if statev.length = 6 * props.length then
    Except.ok (List.replicate statev.length 0)
  else Except.error VError.StateSizeMismatch

/-- Clamping pass of the PropertyValidator: negative modulus ratios are
raised to `0`, relaxation times are untouched. -/
def clampProps (props : List PronyTerm) : List PronyTerm :=
  props.map fun t => PronyTerm.mk (max t.g 0) t.tau

/-- Sum of the modulus ratios of a property set. -/
noncomputable def ratioSum (props : List PronyTerm) : ℝ :=
  (props.map fun t => t.g).sum

/-- Modelled from the spec: the PropertyValidator `propcheck`
(spec section 4.1); the Fortran body `visco.f90` is absent from the
sources. `c` is the configurable rescale ceiling. Returns the sanitized
terms together with a flag recording whether any warning was emitted, or
`InvalidProperty` when some relaxation time is nonpositive. -/
noncomputable def propcheck (c : ℝ) (props : List PronyTerm) :
    Except VError (List PronyTerm × Bool) :=
  if ∃ t ∈ props, t.tau ≤ 0 then Except.error VError.InvalidProperty
  else if (∃ t ∈ clampProps props, 1 < t.g) ∨ 1 < ratioSum (clampProps props) then
    Except.ok
      ((clampProps props).map fun t =>
        PronyTerm.mk (t.g * c / ratioSum (clampProps props)) t.tau, true)
  else
    Except.ok (clampProps props, if ∃ t ∈ props, t.g < 0 then true else false)

/-- The optional-count boundary check of `visco.pyf`: an omitted count
defaults to the array length, and an explicit count `k` is accepted only
when `len >= k` (f2py `check(len(arr)>=n)` with `n=len(arr)` default). -/
def checkCount (n : Option ℕ) (len : ℕ) : Option ℕ :=
  match n with
  | none => some len
  | some k => if len ≥ k then some k else none

/-- The f2py argument boundary of `viscorelax` in `visco.pyf`: both counts
are resolved and checked before the kernel body runs; `none` means the
call is rejected at the boundary. -/
def viscorelaxBoundary (nprop : Option ℕ) (props : List ℝ)
    (nstatev : Option ℕ) (statev : List ℝ) : Option (ℕ × ℕ) :=
  match checkCount nprop props.length, checkCount nstatev statev.length with
  | some np, some ns => some (np, ns)
  | _, _ => none

/-- The f2py argument boundary of `viscoini` in `visco.pyf`. -/
def viscoiniBoundary (nprop : Option ℕ) (props : List ℝ)
    (nstatev : Option ℕ) (statev : List ℝ) : Option (ℕ × ℕ) :=
  match checkCount nprop props.length, checkCount nstatev statev.length with
  | some np, some ns => some (np, ns)
  | _, _ => none

/-- The f2py argument boundary of `propcheck` in `visco.pyf`. -/
def propcheckBoundary (nprop : Option ℕ) (props : List ℝ) : Option ℕ :=
  checkCount nprop props.length

lemma bracket_small {x : ℝ} (h : x < eps) : bracket x = 1 := by
  unfold bracket
  rw [if_pos h]

lemma bracket_of_eps_le {x : ℝ} (h : eps ≤ x) :
    bracket x = (1 - Real.exp (-x)) / x := by
  unfold bracket
  rw [if_neg (not_lt.2 h)]

lemma relaxState_nil (dt : ℝ) (statev : List ℝ) (dsig : Stress) :
    relaxState dt [] statev dsig = statev := by
  unfold relaxState
  apply List.ext_getElem
  · simp
  · intro i h1 h2
    rw [List.getElem_map, List.getElem_range]
    rw [dif_neg (by simp)]
    exact List.getD_eq_getElem _ _ h2

lemma blockSum_zero (statev : List ℝ) (k : Fin 6) : blockSum 0 statev k = 0 := by
  simp [blockSum]

lemma cfacA_nil (dt : ℝ) : cfacA dt [] = 1 := by
  simp [cfacA]

lemma viscorelax_state_pos {dt : ℝ} (time tempold dtemp : ℝ)
    (props : List PronyTerm) (f : Matrix (Fin 3) (Fin 3) ℝ) (statev : List ℝ)
    (sigo dsig : Stress) (h : 0 < dt) :
    (viscorelax dt time tempold dtemp props f statev sigo dsig).2 =
      relaxState dt props statev dsig := by
  unfold viscorelax
  rw [if_neg (not_lt.2 h.le), if_neg h.ne']

lemma relaxState_get (dt : ℝ) (props : List PronyTerm) (statev : List ℝ)
    (dsig : Stress) (i k : ℕ) (hi : i < props.length) (hk : k < 6)
    (hj : 6 * i + k < statev.length) :
    (relaxState dt props statev dsig).getD (6 * i + k) 0 =
      termUpdate dt (props.get ⟨i, hi⟩).tau (props.get ⟨i, hi⟩).g
        (statev.getD (6 * i + k) 0) (dsig ⟨k, hk⟩) := by
  have hdiv : (6 * i + k) / 6 = i := by omega
  have hmod : (6 * i + k) % 6 = k := by omega
  unfold relaxState
  rw [List.getD_eq_getElem _ _ (by simpa using hj)]
  rw [List.getElem_map, List.getElem_range]
  simp only [hdiv, hmod]
  rw [dif_pos hi]

lemma checkCount_default (len : ℕ) : checkCount none len = some len := rfl

lemma checkCount_le {n : Option ℕ} {len k : ℕ} (h : checkCount n len = some k) :
    k ≤ len := by
  cases n with
  | none => simp [checkCount] at h; omega
  | some m =>
    simp only [checkCount] at h
    split at h
    · cases h; omega
    · cases h

lemma checkCount_reject {len k : ℕ} (h : len < k) : checkCount (some k) len = none := by
  simp only [checkCount]
  rw [if_neg]
  omega

/-- C3: with `dtime = 0` the relaxation integrator is a no-op: the stress is
returned unchanged, the InternalState buffer is unchanged, and the
correction factors are the neutral pair `(1, 0)`. -/
theorem viscorelax_dtime_zero (time tempold dtemp : ℝ) (props : List PronyTerm)
    (f : Matrix (Fin 3) (Fin 3) ℝ) (statev : List ℝ) (sigo dsig : Stress) :
    viscorelax 0 time tempold dtemp props f statev sigo dsig =
      (Except.ok (sigo, 1, 0), statev) := by
  simp [viscorelax]

/-- C6: a call with `dtime < 0` fails with `InvalidTimeStep` and leaves the
InternalState buffer unchanged. -/
theorem viscorelax_negative_dtime (dtime time tempold dtemp : ℝ)
    (props : List PronyTerm) (f : Matrix (Fin 3) (Fin 3) ℝ) (statev : List ℝ)
    (sigo dsig : Stress) (h : dtime < 0) :
    viscorelax dtime time tempold dtemp props f statev sigo dsig =
      (Except.error VError.InvalidTimeStep, statev) := by
  simp [viscorelax, h]

theorem viscorelax_negative_dtime_witness :
    viscorelax (-1) 0 0 0 [] 0 [3] (fun _ => 0) (fun _ => 0) =
      (Except.error VError.InvalidTimeStep, [3]) :=
  viscorelax_negative_dtime (-1) 0 0 0 [] 0 [3] (fun _ => 0) (fun _ => 0)
    (by norm_num)

/-- C8: on a buffer of exactly 6 components per Prony term, `viscoini`
zero-fills the buffer and is idempotent (running it again on its output
returns the same zero-filled state); on any other buffer size it fails
with `StateSizeMismatch`. -/
theorem viscoini_spec (props : List PronyTerm) (statev : List ℝ) :
    (statev.length = 6 * props.length →
      viscoini props statev = Except.ok (List.replicate statev.length 0) ∧
      viscoini props (List.replicate statev.length 0) =
        Except.ok (List.replicate statev.length 0)) ∧
    (statev.length ≠ 6 * props.length →
      viscoini props statev = Except.error VError.StateSizeMismatch) := by
  refine ⟨fun h => ⟨by simp [viscoini, h], by simp [viscoini, h]⟩, fun h => ?_⟩
  simp [viscoini, h]

theorem viscoini_spec_witness :
    viscoini [PronyTerm.mk (1 / 2) 1] (List.replicate 6 3) =
      Except.ok (List.replicate 6 0) ∧
    viscoini [PronyTerm.mk (1 / 2) 1] [] = Except.error VError.StateSizeMismatch := by
  constructor
  · have h := ((viscoini_spec [PronyTerm.mk (1 / 2) 1] (List.replicate 6 3)).1
      (by simp)).1
    simpa using h
  · exact (viscoini_spec [PronyTerm.mk (1 / 2) 1] []).2 (by simp)

/-- C10: at the f2py boundary of each kernel routine the counts `nprop` and
`nstatev` default to the lengths of the supplied arrays; a call whose
explicit count exceeds the corresponding array length is rejected before
the kernel body runs; and any accepted count is bounded by the array
length, so indexed access up to it stays in bounds. -/
theorem boundary_spec (props statev : List ℝ) :
    viscorelaxBoundary none props none statev = some (props.length, statev.length) ∧
    viscoiniBoundary none props none statev = some (props.length, statev.length) ∧
    propcheckBoundary none props = some props.length ∧
    (∀ np ns k l, viscorelaxBoundary np props ns statev = some (k, l) →
      k ≤ props.length ∧ l ≤ statev.length) ∧
    (∀ np ns k l, viscoiniBoundary np props ns statev = some (k, l) →
      k ≤ props.length ∧ l ≤ statev.length) ∧
    (∀ n k, propcheckBoundary n props = some k → k ≤ props.length) ∧
    (∀ ns k, props.length < k →
      viscorelaxBoundary (some k) props ns statev = none) ∧
    (∀ np l, statev.length < l →
      viscorelaxBoundary np props (some l) statev = none) ∧
    (∀ ns k, props.length < k → viscoiniBoundary (some k) props ns statev = none) ∧
    (∀ np l, statev.length < l → viscoiniBoundary np props (some l) statev = none) ∧
    (∀ k, props.length < k → propcheckBoundary (some k) props = none) := by
  refine ⟨rfl, rfl, rfl, ?_, ?_, ?_, ?_, ?_, ?_, ?_, ?_⟩
  · intro np ns k l h
    unfold viscorelaxBoundary at h
    cases h1 : checkCount np props.length with
    | none => rw [h1] at h; cases h
    | some a =>
      cases h2 : checkCount ns statev.length with
      | none => rw [h1, h2] at h; cases h
      | some b =>
        rw [h1, h2] at h
        cases h
        exact ⟨checkCount_le h1, checkCount_le h2⟩
  · intro np ns k l h
    unfold viscoiniBoundary at h
    cases h1 : checkCount np props.length with
    | none => rw [h1] at h; cases h
    | some a =>
      cases h2 : checkCount ns statev.length with
      | none => rw [h1, h2] at h; cases h
      | some b =>
        rw [h1, h2] at h
        cases h
        exact ⟨checkCount_le h1, checkCount_le h2⟩
  · intro n k h
    exact checkCount_le h
  · intro ns k h
    unfold viscorelaxBoundary
    rw [checkCount_reject h]
  · intro np l h
    unfold viscorelaxBoundary
    rw [checkCount_reject h]
    cases checkCount np props.length <;> rfl
  · intro ns k h
    unfold viscoiniBoundary
    rw [checkCount_reject h]
  · intro np l h
    unfold viscoiniBoundary
    rw [checkCount_reject h]
    cases checkCount np props.length <;> rfl
  · intro k h
    unfold propcheckBoundary
    exact checkCount_reject h

/-- C4: with an empty Prony series the integrator is a passthrough: for every
`dtime` the InternalState buffer is returned unchanged and whenever a
stress is returned it equals `sigo` (with neutral factors `(1, 0)`); and
validation of the empty property set succeeds with no warning. -/
theorem viscorelax_no_terms (dt time tempold dtemp : ℝ)
    (f : Matrix (Fin 3) (Fin 3) ℝ) (statev : List ℝ) (sigo dsig : Stress)
    (c : ℝ) :
    viscorelax dt time tempold dtemp [] f statev sigo dsig =
      ((if dt < 0 then Except.error VError.InvalidTimeStep
        else Except.ok (sigo, 1, 0)), statev) ∧
    propcheck c [] = Except.ok ([], false) := by
  constructor
  · unfold viscorelax
    split_ifs with h1 h2
    · rfl
    · rfl
    · rw [relaxState_nil]
      simp [blockSum_zero, cfacA_nil, cfacB]
  · norm_num [propcheck, clampProps, ratioSum]

lemma scenario_value_bounds :
    31.6 < 1 / 2 * ((1 - Real.exp (-1)) / 1) * 100 ∧
    1 / 2 * ((1 - Real.exp (-1)) / 1) * 100 < 31.61 := by
  have hgt := Real.exp_one_gt_d9
  have hlt := Real.exp_one_lt_d9
  have hinv1 : (Real.exp 1)⁻¹ < (2.7182818283 : ℝ)⁻¹ :=
    inv_strictAnti₀ (by norm_num) hgt
  have hinv2 : (2.7182818286 : ℝ)⁻¹ < (Real.exp 1)⁻¹ :=
    inv_strictAnti₀ (Real.exp_pos 1) hlt
  have ha : (2.7182818283 : ℝ)⁻¹ < 0.368 := by norm_num
  have hb : (0.3678 : ℝ) < (2.7182818286 : ℝ)⁻¹ := by norm_num
  rw [Real.exp_neg]
  constructor
  · nlinarith
  · nlinarith

/-- C1: for every Prony term `i` the integrator updates the term's stored
overstress block by
`exp (-dt / tau_i) * old + g_i * bracket (dt / tau_i) * dsig`, where the
bracketed factor is `(1 - exp (-x)) / x` and is taken as `1` when `x` is
numerically negligible; in the single-term scenario `g = 1/2`, `tau = 1`,
`dt = 1`, `dsig = (100, 0, 0, 0, 0, 0)` from a zero state, the first
updated overstress component is `1/2 * (1 - exp (-1)) / 1 * 100`, which
lies strictly between `31.6` and `31.61`. -/
theorem viscorelax_term_update :
    (∀ (dt time tempold dtemp : ℝ) (props : List PronyTerm)
      (f : Matrix (Fin 3) (Fin 3) ℝ) (statev : List ℝ) (sigo dsig : Stress)
      (i k : ℕ) (hdt : 0 < dt) (hi : i < props.length) (hk : k < 6)
      (hj : 6 * i + k < statev.length),
      ((viscorelax dt time tempold dtemp props f statev sigo dsig).2).getD
          (6 * i + k) 0 =
        Real.exp (-(dt / (props.get ⟨i, hi⟩).tau)) * statev.getD (6 * i + k) 0 +
          (props.get ⟨i, hi⟩).g * bracket (dt / (props.get ⟨i, hi⟩).tau) *
            dsig ⟨k, hk⟩) ∧
    (∀ x : ℝ, x < eps → bracket x = 1) ∧
    (∀ x : ℝ, eps ≤ x → bracket x = (1 - Real.exp (-x)) / x) ∧
    ((viscorelax 1 0 0 0 [PronyTerm.mk (1 / 2) 1] 0 (List.replicate 6 0)
        (fun _ => 0) (fun j => if j = 0 then 100 else 0)).2).getD 0 0 =
      1 / 2 * ((1 - Real.exp (-1)) / 1) * 100 ∧
    31.6 < 1 / 2 * ((1 - Real.exp (-1)) / 1) * 100 ∧
    1 / 2 * ((1 - Real.exp (-1)) / 1) * 100 < 31.61 := by
  refine ⟨?_, fun x hx => bracket_small hx, fun x hx => bracket_of_eps_le hx,
    ?_, scenario_value_bounds.1, scenario_value_bounds.2⟩
  · intro dt time tempold dtemp props f statev sigo dsig i k hdt hi hk hj
    rw [viscorelax_state_pos time tempold dtemp props f statev sigo dsig hdt]
    rw [relaxState_get dt props statev dsig i k hi hk hj]
    rfl
  · rw [viscorelax_state_pos 0 0 0 [PronyTerm.mk (1 / 2) 1] 0
      (List.replicate 6 0) (fun _ => 0) (fun j => if j = 0 then 100 else 0)
      one_pos]
    have h := relaxState_get 1 [PronyTerm.mk (1 / 2) 1] (List.replicate 6 0)
      (fun j => if j = 0 then 100 else 0) 0 0 (by norm_num) (by norm_num)
      (by simp)
    norm_num at h
    have hbr : bracket (1 : ℝ) = 1 - Real.exp (-1) := by
      rw [bracket_of_eps_le (by norm_num [eps])]
      norm_num
    rw [List.getD_eq_getElem?_getD, h]
    simp [termUpdate, hbr]

theorem viscorelax_term_update_witness :
    ((viscorelax 1 0 0 0 [PronyTerm.mk (1 / 2) 1] 0 (List.replicate 6 0)
        (fun _ => 0) (fun j => if j = 0 then 100 else 0)).2).getD (6 * 0 + 0) 0 =
      Real.exp (-(1 / ([PronyTerm.mk (1 / 2) 1].get ⟨0, by simp⟩).tau)) *
          (List.replicate 6 (0 : ℝ)).getD (6 * 0 + 0) 0 +
        ([PronyTerm.mk (1 / 2) 1].get ⟨0, by simp⟩).g *
          bracket (1 / ([PronyTerm.mk (1 / 2) 1].get ⟨0, by simp⟩).tau) *
          (fun j : Fin 6 => if j = 0 then (100 : ℝ) else 0) ⟨0, by norm_num⟩ :=
  viscorelax_term_update.1 1 0 0 0 [PronyTerm.mk (1 / 2) 1] 0
    (List.replicate 6 0) (fun _ => 0) (fun j => if j = 0 then 100 else 0) 0 0
    one_pos (by simp) (by norm_num) (by simp)

lemma foldl_min_le_init (l : List ℝ) (a : ℝ) : l.foldl min a ≤ a := by
  induction l generalizing a with
  | nil => exact le_refl a
  | cons x xs ih => exact (ih (min a x)).trans (min_le_left a x)

lemma foldl_min_le_mem (l : List ℝ) (a x : ℝ) (hx : x ∈ l) :
    l.foldl min a ≤ x := by
  induction l generalizing a with
  | nil => cases hx
  | cons y ys ih =>
    rcases List.mem_cons.1 hx with h | h
    · subst h
      exact (foldl_min_le_init ys (min a x)).trans (min_le_right a x)
    · exact ih (min a y) h

lemma foldl_min_eq (l : List ℝ) (a : ℝ) :
    l.foldl min a = a ∨ l.foldl min a ∈ l := by
  induction l generalizing a with
  | nil => exact Or.inl rfl
  | cons y ys ih =>
    rcases ih (min a y) with h | h
    · rcases min_choice a y with hm | hm
      · exact Or.inl (by rw [List.foldl_cons, h, hm])
      · exact Or.inr (by rw [List.foldl_cons, h, hm]; exact List.mem_cons_self y ys)
    · exact Or.inr (List.mem_cons_of_mem y h)

lemma cfacB_eq_foldl (dt : ℝ) (t : PronyTerm) (ts : List PronyTerm) :
    cfacB dt (t :: ts) = (ts.map fun u => dt / u.tau).foldl min (dt / t.tau) := by
  rw [List.foldl_map]
  rfl

lemma cfacB_le {dt : ℝ} {props : List PronyTerm} {t : PronyTerm}
    (ht : t ∈ props) : cfacB dt props ≤ dt / t.tau := by
  cases props with
  | nil => cases ht
  | cons h hs =>
    rw [cfacB_eq_foldl]
    rcases List.mem_cons.1 ht with he | he
    · subst he
      exact foldl_min_le_init _ _
    · exact foldl_min_le_mem _ _ _ (List.mem_map_of_mem _ he)

lemma cfacB_mem {dt : ℝ} {props : List PronyTerm} (h : props ≠ []) :
    ∃ t ∈ props, cfacB dt props = dt / t.tau := by
  cases props with
  | nil => exact absurd rfl h
  | cons x xs =>
    rw [cfacB_eq_foldl]
    rcases foldl_min_eq (xs.map fun u => dt / u.tau) (dt / x.tau) with he | he
    · exact ⟨x, List.mem_cons_self x xs, he⟩
    · obtain ⟨u, hu, he'⟩ := List.mem_map.1 he
      exact ⟨u, List.mem_cons_of_mem x hu, he'.symm⟩

/-- C2: for a nonempty property set and `dtime > 0` whose per-term ratios are
not in the negligible regime, the two correction factors returned by
`viscorelax` are: factor (a)
`1 - Σ g_i * (1 - (1 - exp (-dt / tau_i)) / (dt / tau_i))` and factor (b)
the minimum over the terms of `dt / tau_i` (it is a lower bound of every
per-term ratio and is attained by some term). -/
theorem viscorelax_cfac (dt time tempold dtemp : ℝ) (props : List PronyTerm)
    (f : Matrix (Fin 3) (Fin 3) ℝ) (statev : List ℝ) (sigo dsig : Stress)
    (hne : props ≠ []) (hdt : 0 < dt)
    (hg : ∀ t ∈ props, eps ≤ dt / t.tau) :
    (∃ sig s1,
      viscorelax dt time tempold dtemp props f statev sigo dsig =
        (Except.ok (sig,
          1 - (props.map fun t =>
            t.g * (1 - (1 - Real.exp (-(dt / t.tau))) / (dt / t.tau))).sum,
          cfacB dt props), s1)) ∧
    (∀ t ∈ props, cfacB dt props ≤ dt / t.tau) ∧
    (∃ t ∈ props, cfacB dt props = dt / t.tau) := by
  refine ⟨?_, fun t ht => cfacB_le ht, cfacB_mem hne⟩
  have hA : cfacA dt props =
      1 - (props.map fun t =>
        t.g * (1 - (1 - Real.exp (-(dt / t.tau))) / (dt / t.tau))).sum := by
    unfold cfacA
    congr 1
    apply congrArg
    apply List.map_congr_left
    intro t ht
    rw [bracket_of_eps_le (hg t ht)]
  refine ⟨fun k => sigo k -
      blockSum props.length (relaxState dt props statev dsig) k,
    relaxState dt props statev dsig, ?_⟩
  unfold viscorelax
  rw [if_neg (not_lt.2 hdt.le), if_neg hdt.ne', hA]

theorem viscorelax_cfac_witness :
    (∃ sig s1,
      viscorelax 1 0 0 0 [PronyTerm.mk (1 / 2) 1] 0 (List.replicate 6 0)
          (fun _ => 0) (fun _ => 0) =
        (Except.ok (sig,
          1 - ([PronyTerm.mk (1 / 2) 1].map fun t =>
            t.g * (1 - (1 - Real.exp (-(1 / t.tau))) / (1 / t.tau))).sum,
          cfacB 1 [PronyTerm.mk (1 / 2) 1]), s1)) ∧
    (∀ t ∈ [PronyTerm.mk (1 / 2) 1],
      cfacB 1 [PronyTerm.mk (1 / 2) 1] ≤ 1 / t.tau) ∧
    (∃ t ∈ [PronyTerm.mk (1 / 2) 1],
      cfacB 1 [PronyTerm.mk (1 / 2) 1] = 1 / t.tau) :=
  viscorelax_cfac 1 0 0 0 [PronyTerm.mk (1 / 2) 1] 0 (List.replicate 6 0)
    (fun _ => 0) (fun _ => 0) (by simp) one_pos
    (by intro t ht; rw [List.mem_singleton] at ht; subst ht; norm_num [eps])

/-- C9: the series-expansion guard makes the bracketed factor exactly `1`
when the ratio `dt / tau` is numerically negligible (in particular no
division by that ratio is performed there), and consequently for every
property set with positive relaxation times the correction factor (a)
equals `1` for all sufficiently small nonnegative time increments. -/
theorem cfacA_small_step (props : List PronyTerm)
    (htau : ∀ t ∈ props, 0 < t.tau) :
    (∀ x : ℝ, x < eps → bracket x = 1) ∧
    ∃ d : ℝ, 0 < d ∧ ∀ dt : ℝ, 0 ≤ dt → dt < d → cfacA dt props = 1 := by
  refine ⟨fun x hx => bracket_small hx, ?_⟩
  induction props with
  | nil => exact ⟨1, one_pos, fun dt _ _ => cfacA_nil dt⟩
  | cons t ts ih =>
    obtain ⟨d, hd, hts⟩ := ih fun u hu => htau u (List.mem_cons_of_mem t hu)
    have ht : 0 < t.tau := htau t (List.mem_cons_self t ts)
    have heps : (0 : ℝ) < eps := by norm_num [eps]
    refine ⟨min d (eps * t.tau), lt_min hd (by positivity), fun dt h0 hlt => ?_⟩
    have h1 : cfacA dt ts = 1 :=
      hts dt h0 (lt_of_lt_of_le hlt (min_le_left _ _))
    have hb : bracket (dt / t.tau) = 1 := by
      apply bracket_small
      rw [div_lt_iff₀ ht]
      calc dt < min d (eps * t.tau) := hlt
        _ ≤ eps * t.tau := min_le_right _ _
    unfold cfacA at h1 ⊢
    simp only [List.map_cons, List.sum_cons, hb] at h1 ⊢
    ring_nf
    ring_nf at h1
    linarith

theorem cfacA_small_step_witness :
    (∀ x : ℝ, x < eps → bracket x = 1) ∧
    ∃ d : ℝ, 0 < d ∧ ∀ dt : ℝ, 0 ≤ dt → dt < d →
      cfacA dt [PronyTerm.mk (1 / 2) 1] = 1 :=
  cfacA_small_step [PronyTerm.mk (1 / 2) 1]
    (by intro t ht; rw [List.mem_singleton] at ht; subst ht; norm_num)

lemma clampProps_nonneg (props : List PronyTerm) :
    ∀ t ∈ clampProps props, 0 ≤ t.g := by
  intro t ht
  obtain ⟨u, hu, he⟩ := List.mem_map.1 ht
  rw [← he]
  exact le_max_right u.g 0

lemma ratioSum_pos_of_trigger {props : List PronyTerm}
    (h : (∃ t ∈ clampProps props, 1 < t.g) ∨ 1 < ratioSum (clampProps props)) :
    1 < ratioSum (clampProps props) := by
  rcases h with ⟨t, ht, hg⟩ | h
  · have hle : t.g ≤ ratioSum (clampProps props) := by
      have hmem : t.g ∈ (clampProps props).map fun u => u.g :=
        List.mem_map_of_mem _ ht
      have hnn : ∀ x ∈ (clampProps props).map fun u => u.g, (0 : ℝ) ≤ x := by
        intro x hx
        obtain ⟨u, hu, he⟩ := List.mem_map.1 hx
        rw [← he]
        exact clampProps_nonneg props u hu
      exact List.single_le_sum hnn _ hmem
    exact lt_of_lt_of_le hg hle
  · exact h

lemma sum_map_scale (l : List PronyTerm) (a b : ℝ) :
    ratioSum (l.map fun t => PronyTerm.mk (t.g * a / b) t.tau) =
      ratioSum l * a / b := by
  induction l with
  | nil => simp [ratioSum]
  | cons t ts ih =>
    simp only [List.map_cons, ratioSum, List.sum_cons] at ih ⊢
    rw [ih]
    ring

/-- C5: whenever the validator succeeds with ceiling `c ≤ 1`, the sum of the
modulus ratios of the returned property set is at most `1`; and when some
clamped ratio exceeds `1` or the sum of the clamped ratios exceeds `1`,
all ratios are rescaled by one common nonnegative factor (preserving
relative magnitudes) so that their sum equals the ceiling `c`, and the
warning flag is set. -/
theorem propcheck_sum (c : ℝ) (props props' : List PronyTerm) (w : Bool)
    (hc0 : 0 ≤ c) (hc1 : c ≤ 1)
    (hok : propcheck c props = Except.ok (props', w)) :
    ratioSum props' ≤ 1 ∧
    (((∃ t ∈ clampProps props, 1 < t.g) ∨ 1 < ratioSum (clampProps props)) →
      ratioSum props' = c ∧ w = true ∧
      ∃ lam : ℝ, 0 ≤ lam ∧
        props' = (clampProps props).map fun t =>
          PronyTerm.mk (lam * t.g) t.tau) := by
  unfold propcheck at hok
  by_cases hb1 : ∃ t ∈ props, t.tau ≤ 0
  · rw [if_pos hb1] at hok
    cases hok
  rw [if_neg hb1] at hok
  by_cases hb2 : (∃ t ∈ clampProps props, 1 < t.g) ∨ 1 < ratioSum (clampProps props)
  · rw [if_pos hb2] at hok
    have h := Except.ok.inj hok
    have hp : ((clampProps props).map fun t =>
        PronyTerm.mk (t.g * c / ratioSum (clampProps props)) t.tau) = props' :=
      congrArg Prod.fst h
    have hw : true = w := congrArg Prod.snd h
    have hs : 1 < ratioSum (clampProps props) := ratioSum_pos_of_trigger hb2
    have hs0 : ratioSum (clampProps props) ≠ 0 := by linarith
    have hsum : ratioSum props' = c := by
      rw [← hp, sum_map_scale, mul_comm, mul_div_assoc, div_self hs0, mul_one]
    constructor
    · rw [hsum]; exact hc1
    · intro _
      refine ⟨hsum, hw.symm, c / ratioSum (clampProps props), by positivity, ?_⟩
      rw [← hp]
      apply List.map_congr_left
      intro t ht
      exact congrArg (fun x => PronyTerm.mk x t.tau) (by ring)
  · rw [if_neg hb2] at hok
    have h := Except.ok.inj hok
    have hp : clampProps props = props' := congrArg Prod.fst h
    push_neg at hb2
    constructor
    · rw [← hp]
      exact hb2.2
    · intro htr
      rcases htr with htr | htr
      · obtain ⟨t, ht, hg⟩ := htr
        exact absurd hg (not_lt.2 (hb2.1 t ht))
      · exact absurd htr (not_lt.2 hb2.2)

theorem propcheck_sum_witness :
    ratioSum [PronyTerm.mk 1 1] ≤ 1 ∧
    (((∃ t ∈ clampProps [PronyTerm.mk 2 1], 1 < t.g) ∨
        1 < ratioSum (clampProps [PronyTerm.mk 2 1])) →
      ratioSum [PronyTerm.mk 1 1] = 1 ∧ (true = true) ∧
      ∃ lam : ℝ, 0 ≤ lam ∧
        [PronyTerm.mk 1 1] = (clampProps [PronyTerm.mk 2 1]).map fun t =>
          PronyTerm.mk (lam * t.g) t.tau) :=
  propcheck_sum 1 [PronyTerm.mk 2 1] [PronyTerm.mk 1 1] true zero_le_one
    (le_refl 1)
    (by norm_num [propcheck, clampProps, ratioSum, max_def])

/-- C7: a property set containing a term with nonpositive decay time makes the
validator fail with `InvalidProperty`; whereas a negative modulus ratio
(with all decay times positive) is non-fatal: the validator still
succeeds, the offending ratios end up clamped to `0`, and the warning
flag is set. -/
theorem propcheck_bad_tau_neg_ratio (c : ℝ) (props : List PronyTerm) :
    ((∃ t ∈ props, t.tau ≤ 0) →
      propcheck c props = Except.error VError.InvalidProperty) ∧
    ((∀ t ∈ props, 0 < t.tau) → (∃ t ∈ props, t.g < 0) →
      ∃ props', propcheck c props = Except.ok (props', true) ∧
        props'.length = props.length ∧
        ∀ (i : ℕ) (hi : i < props.length) (hi' : i < props'.length),
          (props.get ⟨i, hi⟩).g < 0 → (props'.get ⟨i, hi'⟩).g = 0) := by
  constructor
  · intro h
    unfold propcheck
    rw [if_pos h]
  · intro htau hneg
    have h1 : ¬∃ t ∈ props, t.tau ≤ 0 := by
      push_neg
      intro t ht
      exact htau t ht
    unfold propcheck
    rw [if_neg h1]
    split_ifs with h2
    · refine ⟨_, rfl, by simp [clampProps], ?_⟩
      intro i hi hi' hg
      simp only [clampProps, List.get_eq_getElem, List.getElem_map]
      have hm : max (props.get ⟨i, hi⟩).g 0 = 0 := max_eq_right hg.le
      simp only [List.get_eq_getElem] at hm
      rw [hm]
      simp
    · refine ⟨_, rfl, by simp [clampProps], ?_⟩
      intro i hi hi' hg
      simp only [clampProps, List.get_eq_getElem, List.getElem_map]
      have hm : max (props.get ⟨i, hi⟩).g 0 = 0 := max_eq_right hg.le
      simp only [List.get_eq_getElem] at hm
      rw [hm]

theorem propcheck_bad_tau_neg_ratio_witness :
    propcheck 1 [PronyTerm.mk (1 / 2) (-1)] =
      Except.error VError.InvalidProperty ∧
    ∃ props', propcheck 1 [PronyTerm.mk (-(1 / 2)) 1] =
        Except.ok (props', true) ∧
      props'.length = [PronyTerm.mk (-(1 / 2)) 1].length ∧
      ∀ (i : ℕ) (hi : i < [PronyTerm.mk (-(1 / 2)) 1].length)
        (hi' : i < props'.length),
        ([PronyTerm.mk (-(1 / 2)) 1].get ⟨i, hi⟩).g < 0 →
          (props'.get ⟨i, hi'⟩).g = 0 := by
  constructor
  · exact (propcheck_bad_tau_neg_ratio 1 [PronyTerm.mk (1 / 2) (-1)]).1
      ⟨PronyTerm.mk (1 / 2) (-1), by norm_num⟩
  · exact (propcheck_bad_tau_neg_ratio 1 [PronyTerm.mk (-(1 / 2)) 1]).2
      (by intro t ht; rw [List.mem_singleton] at ht; subst ht; norm_num)
      ⟨PronyTerm.mk (-(1 / 2)) 1, by norm_num⟩

theorem boundary_spec_witness :
    viscorelaxBoundary none [1, 2] none [3] = some (2, 1) ∧
    (2 ≤ [(1 : ℝ), 2].length ∧ 1 ≤ [(3 : ℝ)].length) ∧
    viscorelaxBoundary (some 5) [1, 2] none [3] = none := by
  refine ⟨(boundary_spec [1, 2] [3]).1, ?_, ?_⟩
  · exact (boundary_spec [1, 2] [3]).2.2.2.1 none none 2 1 (by decide)
  · exact (boundary_spec [1, 2] [3]).2.2.2.2.2.2.1 none 5 (by decide)

end Visco
